import Mathlib

/-!
Verification of the BackupHandler backup engine against its specification.

The Python sources are shallowly embedded: pure decision logic becomes Lean
functions, file contents become lists of bytes (List Nat), fallible reads
become Option, and library primitives that are outside the repository
(SHA-256, AES-GCM, PBKDF2) become explicit function parameters together with
their documented contracts.
-/

namespace BackupHandler

/-! ## Checksum utility (src/src/utils.py) -/

/-- Embeds utils.calculate_checksum: the SHA-256 hex digest of the file
contents, or None when the read raised.  The hash primitive (hashlib) is a
parameter; the file state is None when the file is unreadable. -/
def calculate_checksum (h : List Nat → String) (contents : Option (List Nat)) :
    Option String :=
  match contents with
  | none => none
  | some bytes => some (h bytes)

/-- Embeds utils.verify_backup: Python compares the two digest values with
the equality operator, and None == None is True. -/
def verify_backup (h : List Nat → String)
    (src dst : Option (List Nat)) : Bool :=
  calculate_checksum h src = calculate_checksum h dst

/-! ## Verify engine per-entry verdict (src/src/verify.py) -/

inductive Verdict where
  | verified
  | missing
  | corrupted
  | errors
deriving DecidableEq, Repr

/-- Embeds the per-copied-entry classification of
verify.verify_backup_integrity (lines 65-117).
plain: the plain-file candidate found by rglob, with either its stat size or
none when stat raised; enc: the raw bytes of a <basename>.enc candidate when
one exists; haveCred: whether a passphrase or key file was supplied;
decryptSize: the size of the decrypted temp file, none when decryption
raised (models _verify_encrypted_file, which reports False on both size
mismatch and exception, counted as corrupted at results level). -/
def verifyEntryVerdict (plain : Option (Option Nat)) (enc : Option (List Nat))
    (haveCred : Bool) (decryptSize : List Nat → Option Nat)
    (expected : Nat) : Verdict :=
  match plain with
  | some (some actual) => if actual = expected then .verified else .corrupted
  | some none => .errors
  | none =>
    match enc with
    | some encBytes =>
      if haveCred then
        match decryptSize encBytes with
        | some sz => if sz = expected then .verified else .corrupted
        | none => .corrupted
      else
        .verified
    | none => .missing

/-! ## SFTP upload decision (src/src/sync.py, _sftp_upload_directory) -/

inductive BackupMode where
  | full
  | incremental
  | differential
deriving DecidableEq, Repr

/-- Result of sftp.stat on the remote path: found with its mtime, or the
FileNotFoundError branch. -/
inductive SftpStat where
  | found (remoteMtime : Nat)
  | notFound
deriving DecidableEq, Repr

structure UploadDecision where
  upload : Bool
  skipRecorded : Bool
deriving DecidableEq, Repr

/-- Embeds the per-file decision of sync._sftp_upload_directory
(lines 188-204): in incremental or differential mode stat the remote file;
upload iff the local mtime is strictly newer or the stat raised
FileNotFoundError; record a skip (when a manifest is present) otherwise.
In full mode should_upload stays True. -/
def sftpUploadDecision (mode : BackupMode) (st : SftpStat)
    (localMtime : Nat) (hasManifest : Bool) : UploadDecision :=
  match mode with
  | .full => ⟨true, false⟩
  | .incremental | .differential =>
    match st with
    | .notFound => ⟨true, false⟩
    | .found rm =>
      if localMtime > rm then ⟨true, false⟩ else ⟨false, hasManifest⟩

/-! ## Scheduler PID lock (src/main.py, _acquire_lock) -/

/-- Outcome of os.kill(pid, 0): succeeds, raises ProcessLookupError, or
raises PermissionError. -/
inductive KillRes where
  | ok
  | noProcess
  | permDenied
deriving DecidableEq, Repr

/-- POSIX semantics of signal 0: the probed process exists unless the call
reports ESRCH; EPERM means the process exists but may not be signalled. -/
def pidAliveOfKill : KillRes → Bool
  | .noProcess => false
  | _ => true

inductive LockOutcome where
  /-- sys.exit(1) naming the pid; lockTouched records whether the lock file
  was removed or overwritten on this path. -/
  | exited (pid : Nat) (lockTouched : Bool)
  /-- Lock written with the current PID; fields record that the file was
  overwritten and that _release_lock was registered with atexit. -/
  | acquired (wrotePid : Bool) (registeredCleanup : Bool)
deriving DecidableEq, Repr

/-- Embeds main._acquire_lock (lines 48-63).  lockContents is None when the
lock file does not exist, some none when its text does not parse as an int
(ValueError), and some (some pid) otherwise; kill gives the outcome of
os.kill(pid, 0).  ProcessLookupError and PermissionError are both caught by
the stale-lock branch. -/
def acquireLock (lockContents : Option (Option Nat))
    (kill : Nat → KillRes) : LockOutcome :=
  match lockContents with
  | some (some pid) =>
    match kill pid with
    | .ok => .exited pid false
    | .noProcess => .acquired true true
    | .permDenied => .acquired true true
  | some none => .acquired true true
  | none => .acquired true true

/-! ## Run orchestrator timestamp updates (src/main.py, backup_operation) -/

/-- The inputs of main.backup_operation that decide its control flow around
timestamp updates.  preHookFails is true when a pre_backup hook is
configured and run_hook reports failure; backupRaised is the outcome of the
local backup function (its exception is caught inside _run_backup);
sinkRaised covers the ssh and s3 sinks (also caught at their call sites). -/
structure RunArgs where
  mode : BackupMode
  localSelected : Bool
  backupDirsNonempty : Bool
  dryRun : Bool
  preHookFails : Bool
  compress : Bool
  backupRaised : Bool
  sinkRaised : Bool
deriving DecidableEq, Repr

inductive RunResult where
  /-- Pre-backup hook failed: backup_operation returns before any sink. -/
  | abortedPreHook
  /-- sys.exit(1) on an invalid compress option for incremental or
  differential mode. -/
  | exitedBadOption
  /-- The run reached the end of backup_operation (dry runs return just
  before the manifest save).  The flags record which timestamp files were
  written. -/
  | finished (fullUpdated : Bool) (lastUpdated : Bool)
deriving DecidableEq, Repr

/-- Embeds the control flow of main.backup_operation (lines 404-527) as far
as the timestamp store is concerned.  update_last_full_backup_time is
called unconditionally at the end of the full-mode local branch (line 460),
after _run_backup has already swallowed any exception from the backup
function; update_last_backup_time is called unconditionally on every
non-dry run that gets past the pre-hook (line 516). -/
def backupOperation (a : RunArgs) : RunResult :=
  if a.preHookFails then .abortedPreHook
  else if a.localSelected && a.backupDirsNonempty && !a.dryRun &&
      (a.mode == .incremental || a.mode == .differential) && a.compress then
    -- sys.exit(1): compress is invalid for incremental and differential
    .exitedBadOption
  else
    -- update_last_full_backup_time runs at the end of the full local
    -- branch regardless of a.backupRaised (the exception was caught);
    -- update_last_backup_time runs on every non-dry run (dry runs return
    -- at line 504 before it)
    .finished
      (a.localSelected && a.backupDirsNonempty && !a.dryRun &&
        (a.mode == .full))
      (!a.dryRun)

/-! ## Incremental backup manifest recording (src/src/sync.py,
perform_incremental_backup) -/

/-- A filtered source entry as the incremental loop sees it. -/
structure SrcFile where
  mtime : Nat
  isSymlink : Bool
deriving DecidableEq, Repr

/-- Outcome of the copy attempt for one (file, backup_dir) pair. -/
inductive CopyRes where
  | ok
  | checksumFail
  | exc
deriving DecidableEq, Repr

inductive ManifestRec where
  | copied
  | skipped
  | failed
deriving DecidableEq, Repr

/-- Embeds the body of the per-(file, backup_dir) iteration of
sync.perform_incremental_backup (lines 416-445), with a manifest present:
exactly one of record_copy, record_skip, record_failure runs.  Symlinks are
recorded as copied by handle_symlink (whose own errors are swallowed). -/
def incRecord (lastBackupTime : Nat) (f : SrcFile) (destExists : Bool)
    (res : CopyRes) : ManifestRec :=
  if f.mtime > lastBackupTime ∨ ¬destExists then
    if f.isSymlink then .copied
    else
      match res with
      | .ok => .copied
      | .checksumFail => .failed
      | .exc => .failed
  else .skipped

/-- The sequence of manifest records produced by one incremental run over
the filtered file list and the configured backup directories: the outer
loop is over files, the inner loop over backup_dirs. -/
def incRecords (lastBackupTime : Nat) (files : List SrcFile)
    (dirs : List Nat) (destExists : SrcFile → Nat → Bool)
    (res : SrcFile → Nat → CopyRes) : List ManifestRec :=
  files.flatMap (fun f =>
    dirs.map (fun d => incRecord lastBackupTime f (destExists f d) (res f d)))

/-- The manifest counters after the run: copied, skipped and failed list
lengths. -/
def incManifestTotal (lastBackupTime : Nat) (files : List SrcFile)
    (dirs : List Nat) (destExists : SrcFile → Nat → Bool)
    (res : SrcFile → Nat → CopyRes) : Nat :=
  let l := incRecords lastBackupTime files dirs destExists res
  l.count .copied + l.count .skipped + l.count .failed

/-! ## Exclusion filter (spec section 4.2) -/

/-- Glob matching of a pattern against a string, over lists of characters:
a star matches any (possibly empty) run of characters, a question mark
matches exactly one character, every other character matches itself. -/
def globMatch : List Char → List Char → Bool
  | [], [] => true
  | [], _ :: _ => false
  | '*' :: ps, [] => globMatch ps []
  | '*' :: ps, c :: cs => globMatch ps (c :: cs) || globMatch ('*' :: ps) cs
  | '?' :: _, [] => false
  | '?' :: ps, _ :: cs => globMatch ps cs
  | _ :: _, [] => false
  | p :: ps, c :: cs => (p = c) && globMatch ps cs
termination_by p s => (s.length, p.length)

def globMatches (pattern s : String) : Bool :=
  globMatch pattern.toList s.toList

/-- A path relative to the source root, split into its directory components
and its final component (the basename). -/
structure RelPath where
  dirs : List String
  base : String
deriving DecidableEq, Repr

def RelPath.full (r : RelPath) : String :=
  String.intercalate "/" (r.dirs ++ [r.base])

/-- The strings a pattern is tried against: the full relative path, the
basename, and every ancestor path segment. -/
def RelPath.candidates (r : RelPath) : List String :=
  r.full :: r.base :: r.dirs

/-- Modelled from the spec: should_exclude is imported from src.utils in
both src/src/sync.py and src/src/s3_sync.py but is not defined anywhere
under src/.  Spec section 4.2: evaluates glob patterns against the path
relative to the source root; a path matches if any pattern matches any of
(full relative path, basename, any ancestor segment); an empty pattern list
(or None, the callers' default) means accept all. -/
def should_exclude (rel : RelPath) (patterns : Option (List String)) : Bool :=
  match patterns with
  | none => false
  | some pats =>
    pats.any (fun pat => rel.candidates.any (fun s => globMatches pat s))

/-! ## A stable insertion sort shared by the manifest loader and the
retention reaper models -/

def insLe (le : α → α → Bool) (x : α) : List α → List α
  | [] => [x]
  | y :: ys => if le x y then x :: y :: ys else y :: insLe le x ys

/-- Stable sort by the boolean relation le: an element is inserted before
the first existing element it compares le to, so equal elements keep their
original order, as Python's sorted and list.sort guarantee. -/
def sortLe (le : α → α → Bool) : List α → List α
  | [] => []
  | x :: xs => insLe le x (sortLe le xs)

/-! ## Manifest loader and point-in-time restore plan
(src/src/manifest.py, src/src/restore.py) -/

structure CopyEntry where
  path : String
  size : Nat
deriving DecidableEq, Repr

/-- One backup_manifest_<ts>.json file of a backup directory: its timestamp
part and its copied list.  The code compares the YYYYMMDD_HHMMSS timestamp
parts as strings; they are fixed-length digit strings (with the underscore
at a fixed position), so their lexicographic order coincides with the
numeric order of the digit sequence, modelled here as a Nat. -/
structure ManifestFile where
  ts : Nat
  copied : List CopyEntry
deriving DecidableEq, Repr

/-- Embeds manifest.load_manifests_up_to: glob the manifest files, sort by
filename (equivalently by timestamp, the rest of the filename being fixed),
keep those whose timestamp part is at most the cutoff, oldest first. -/
def load_manifests_up_to (files : List ManifestFile) (cutoff : Nat) :
    List ManifestFile :=
  (sortLe (fun a b => decide (a.ts ≤ b.ts)) files).filter
    (fun m => decide (m.ts ≤ cutoff))

/-- One insertion into the files_to_restore dict of
restore._restore_with_manifests: Python dict assignment replaces the value
of an existing key in place and appends a new key at the end. -/
def insertEntry (m : List (String × CopyEntry)) (e : CopyEntry) :
    List (String × CopyEntry) :=
  if m.any (fun q => q.1 = e.path) then
    m.map (fun q => if q.1 = e.path then (q.1, e) else q)
  else
    m ++ [(e.path, e)]

/-- Embeds the files_to_restore accumulation (restore.py lines 335-338):
manifests in chronological order, each copied entry keyed by its path, the
latest occurrence winning. -/
def filesToRestore (ms : List ManifestFile) : List (String × CopyEntry) :=
  ms.foldl (fun acc mf => mf.copied.foldl insertEntry acc) []

inductive RestorePlan where
  /-- No manifest at or before the cutoff: full-directory restore. -/
  | fullRestore
  /-- Replay: the path-keyed union of the copied entries. -/
  | replay (entries : List (String × CopyEntry))
deriving DecidableEq, Repr

/-- Embeds restore._restore_with_manifests (lines 320-338): load the
manifests up to the timestamp; when none exist fall back to
_restore_full_directory, otherwise restore exactly the keys of the
accumulated dict. -/
def restorePlan (files : List ManifestFile) (cutoff : Nat) : RestorePlan :=
  match load_manifests_up_to files cutoff with
  | [] => .fullRestore
  | ms => .replay (filesToRestore ms)

/-! ## Retention reaper (src/src/retention.py, cleanup_old_backups) -/

/-- A top-level entry of a backup directory.  isManifest embeds the test
name.startswith backup_manifest_ and suffix .json; such entries are
excluded from retention. -/
structure RetEntry where
  name : String
  mtime : Nat
  isManifest : Bool
deriving DecidableEq, Repr

/-- The non-manifest entries sorted by modification time, newest first
(entries.sort with key mtime, reverse=True; Python sort is stable and so is
the insertion sort used here). -/
def retentionSortedDesc (entries : List RetEntry) : List RetEntry :=
  sortLe (fun a b => decide (b.mtime ≤ a.mtime))
    (entries.filter (fun e => !e.isManifest))

/-- The survivors of the age rule: entries whose age now - mtime exceeds
max_age_days * 86400 seconds are removed; the rule is skipped when
max_age_days is 0. -/
def retentionAfterAge (entries : List RetEntry) (maxAgeDays now : Nat) :
    List RetEntry :=
  if maxAgeDays > 0 then
    (retentionSortedDesc entries).filter
      (fun e => decide (now - e.mtime ≤ maxAgeDays * 86400))
  else retentionSortedDesc entries

/-- The non-manifest entries of one backup directory that survive
cleanup_old_backups, assuming every individual removal succeeds.  Mirrors
the code: early return when both knobs are 0; sort newest first; apply the
age rule; the count rule then keeps the newest max_count of the
survivors. -/
def retentionKept (entries : List RetEntry) (maxAgeDays maxCount now : Nat) :
    List RetEntry :=
  if maxAgeDays = 0 ∧ maxCount = 0 then
    entries.filter (fun e => !e.isManifest)
  else if maxCount > 0 ∧
      (retentionAfterAge entries maxAgeDays now).length > maxCount then
    (retentionAfterAge entries maxAgeDays now).take maxCount
  else retentionAfterAge entries maxAgeDays now

/-- The full surviving contents of the directory: manifest files are never
touched by the reaper. -/
def retentionSurvivors (entries : List RetEntry)
    (maxAgeDays maxCount now : Nat) : List RetEntry :=
  entries.filter (fun e => e.isManifest) ++
    retentionKept entries maxAgeDays maxCount now

/-! ## Encryption codec (src/src/encryption.py)

The AES-GCM primitive and the PBKDF2 derivation live in the cryptography
library, outside this repository; they are passed as parameters.  aesEnc
takes key, nonce, plaintext; aesDec returns none when authentication fails.
What the repository owns — and what is embedded here — is the on-disk
layout salt(16) || nonce(12) || ciphertext and the key selection on each
side. -/

def SALT_SIZE : Nat := 16
def NONCE_SIZE : Nat := 12

/-- The credential: a passphrase, or the contents of a raw key file. -/
inductive Cred where
  | passphrase (pw : String)
  | keyFile (key : List Nat)
deriving DecidableEq, Repr

/-- Embeds encryption.encrypt_file (lines 51-71): get_encryption_key gives
(derived key, fresh salt) for a passphrase and (file key, zero salt
placeholder) for a key file; the .enc sibling holds salt ++ nonce ++
AES-GCM ciphertext. -/
def encrypt_file (aesEnc : List Nat → List Nat → List Nat → List Nat)
    (derive : String → List Nat → List Nat) (cred : Cred)
    (freshSalt nonce plaintext : List Nat) : List Nat :=
  match cred with
  | .keyFile key =>
    List.replicate SALT_SIZE 0 ++ nonce ++ aesEnc key nonce plaintext
  | .passphrase pw =>
    freshSalt ++ nonce ++ aesEnc (derive pw freshSalt) nonce plaintext

/-- Embeds encryption.decrypt_file (lines 74-101): split the file into the
16-byte salt field, the 12-byte nonce and the ciphertext; a key file is
used directly (the salt field is ignored), otherwise the key is re-derived
from the passphrase and the stored salt. -/
def decrypt_file (aesDec : List Nat → List Nat → List Nat → Option (List Nat))
    (derive : String → List Nat → List Nat) (cred : Cred)
    (data : List Nat) : Option (List Nat) :=
  let salt := data.take SALT_SIZE
  let nonce := (data.drop SALT_SIZE).take NONCE_SIZE
  let ciphertext := (data.drop SALT_SIZE).drop NONCE_SIZE
  let key :=
    match cred with
    | .keyFile k => k
    | .passphrase pw => derive pw salt
  aesDec key nonce ciphertext

/-! ## Theorems -/

/-- C10: when a manifest copied entry has no plain-file candidate in the
backup directory but a <basename>.enc candidate exists, and no decryption
credential was supplied, verify_backup_integrity counts the entry as
verified whatever the bytes of the .enc file and whatever the manifest
size: no size or content comparison happens on this path. -/
theorem c10_encrypted_no_creds_verified (expected : Nat)
    (encBytes : List Nat) (decryptSize : List Nat → Option Nat) :
    verifyEntryVerdict none (some encBytes) false decryptSize expected =
      .verified :=
  rfl

/-- C4 counterexample: when both reads fail, both digests are the null
sentinel and Python evaluates None == None to True, so verify_backup
reports the two unreadable files as equal — the claim as stated is false
for the both-null input. -/
theorem c4_checksum_null_counterexample :
    calculate_checksum (fun _ => "") none = none ∧
    verify_backup (fun _ => "") none none = true :=
  ⟨rfl, by decide⟩

/-- C4 amended: the comparison returns false when exactly one of the two
digests is the null sentinel, but returns true when both are null (both
files unreadable). -/
theorem c4_checksum_null_comparison (h : List Nat → String)
    (a b : Option (List Nat)) :
    (calculate_checksum h a = none → calculate_checksum h b ≠ none →
      verify_backup h a b = false) ∧
    (calculate_checksum h b = none → calculate_checksum h a ≠ none →
      verify_backup h a b = false) ∧
    (calculate_checksum h a = none → calculate_checksum h b = none →
      verify_backup h a b = true) := by
  refine ⟨fun ha hb => ?_, fun hb ha => ?_, fun ha hb => ?_⟩
  · have hne : calculate_checksum h a ≠ calculate_checksum h b := by
      rw [ ha]
      exact fun hh => hb hh.symm
    simp [verify_backup, hne]
  · have hne : calculate_checksum h a ≠ calculate_checksum h b := by
      rw [ hb]
      exact ha
    simp [verify_backup, hne]
  · simp [verify_backup, ha, hb]

theorem c4_checksum_null_comparison_witness :
    verify_backup (fun _ => "") none (some [1]) = false ∧
    verify_backup (fun _ => "") (some [1]) none = false ∧
    verify_backup (fun _ => "") none none = true :=
  ⟨(c4_checksum_null_comparison (fun _ => "") none (some [1])).1 rfl
      (by simp [calculate_checksum]),
    (c4_checksum_null_comparison (fun _ => "") (some [1]) none).2.1 rfl
      (by simp [calculate_checksum]),
    (c4_checksum_null_comparison (fun _ => "") none none).2.2 rfl rfl⟩

/-- C7: for incremental and differential SFTP uploads, the file is uploaded
iff the remote stat raised FileNotFoundError or the local mtime is strictly
greater than the remote mtime, and a skip is recorded exactly otherwise;
in full mode every file is uploaded and no skip recorded. -/
theorem c7_sftp_upload_decision (m : BackupMode) (st : SftpStat) (lm : Nat) :
    (m ≠ .full →
      ((sftpUploadDecision m st lm true).upload = true ↔
        st = .notFound ∨ ∃ rm, st = .found rm ∧ rm < lm) ∧
      ((sftpUploadDecision m st lm true).skipRecorded = true ↔
        ∃ rm, st = .found rm ∧ lm ≤ rm)) ∧
    (m = .full → sftpUploadDecision m st lm true = ⟨true, false⟩) := by
  cases m <;> cases st <;> simp [sftpUploadDecision] <;>
    rename_i rm <;>
    rcases Nat.lt_or_ge rm lm with hlt | hge
  · rw [if_pos hlt]
    refine ⟨by simp [hlt], by simp; omega⟩
  · rw [if_neg (Nat.not_lt.mpr hge)]
    refine ⟨by simp; omega, by simp [hge]⟩
  · rw [if_pos hlt]
    refine ⟨by simp [hlt], by simp; omega⟩
  · rw [if_neg (Nat.not_lt.mpr hge)]
    refine ⟨by simp; omega, by simp [hge]⟩

theorem c7_sftp_upload_decision_witness :
    (sftpUploadDecision .incremental (.found 5) 7 true).upload = true ∧
    (sftpUploadDecision .differential (.found 7) 5 true).skipRecorded = true ∧
    sftpUploadDecision .full (.found 9) 1 true = ⟨true, false⟩ :=
  ⟨((c7_sftp_upload_decision .incremental (.found 5) 7).1 (by decide)).1.mpr
      (Or.inr ⟨5, rfl, by decide⟩),
    ((c7_sftp_upload_decision .differential (.found 7) 5).1 (by decide)).2.mpr
      ⟨7, rfl, by decide⟩,
    (c7_sftp_upload_decision .full (.found 9) 1).2 rfl⟩

/-- C8 counterexample: a lock file whose recorded PID belongs to a live
process that os.kill(pid, 0) cannot signal (PermissionError, i.e. EPERM,
which under POSIX means the process exists) is treated by _acquire_lock as
stale — the lock is overwritten and the scheduler proceeds instead of
exiting with the already-running error. -/
theorem c8_lock_counterexample :
    pidAliveOfKill ((fun _ => KillRes.permDenied) 42) = true ∧
    acquireLock (some (some 42)) (fun _ => .permDenied) =
      .acquired true true :=
  ⟨rfl, rfl⟩

/-- C8 amended: _acquire_lock exits (without touching the lock file) iff
the lock file exists, its contents parse as an integer PID, and signal 0 to
that PID succeeds without raising; ProcessLookupError, PermissionError and
unparsable contents all take the stale path, overwriting the lock with the
current PID and registering its removal on exit. -/
theorem c8_lock_acquisition (contents : Option (Option Nat))
    (kill : Nat → KillRes) :
    (∀ pid, acquireLock contents kill = .exited pid false ↔
      contents = some (some pid) ∧ kill pid = .ok) ∧
    ((∀ pid, contents = some (some pid) → kill pid ≠ .ok) →
      acquireLock contents kill = .acquired true true) := by
  constructor
  · intro pid
    rcases contents with _ | c
    · simp [acquireLock]
    · rcases c with _ | p
      · simp [acquireLock]
      · rcases hk : kill p with _ | _ | _ <;> simp [acquireLock, hk] <;>
          rintro rfl <;> simp [hk]
  · intro hnone
    rcases contents with _ | c
    · rfl
    · rcases c with _ | p
      · rfl
      · rcases hk : kill p with _ | _ | _ <;> simp [acquireLock, hk]
        exact hnone p rfl hk

theorem c8_lock_acquisition_witness :
    acquireLock (some none) (fun _ => .ok) = .acquired true true ∧
    acquireLock (some (some 7)) (fun _ => .ok) = .exited 7 false :=
  ⟨(c8_lock_acquisition (some none) (fun _ => .ok)).2
      (fun _ h => by cases h),
    ((c8_lock_acquisition (some (some 7)) (fun _ => .ok)).1 7).mpr
      ⟨rfl, rfl⟩⟩

/-- C5 counterexample: a non-dry full run whose local backup function
raised (the exception is swallowed inside _run_backup) still updates both
last_full_backup_time (line 460) and last_backup_time (line 516) — the
claim that a failed run does not update the timestamps is false.  The
RunArgs fields are mode, localSelected, backupDirsNonempty, dryRun,
preHookFails, compress, backupRaised, sinkRaised. -/
theorem c5_timestamp_update_counterexample :
    (⟨.full, true, true, false, false, false, true, true⟩ : RunArgs).backupRaised
        = true ∧
    backupOperation ⟨.full, true, true, false, false, false, true, true⟩ =
      .finished true true :=
  ⟨rfl, by decide⟩

/-- C5 amended: full backups update both timestamps and incremental or
differential backups update only last_backup_time, but neither update is
conditioned on success: for every run that passes the pre-hook and does not
exit on an invalid compress option, last_full_backup_time is written iff
the run is a non-dry local full backup with backup directories, and
last_backup_time is written iff the run is not a dry run — independently of
backupRaised and sinkRaised. -/
theorem c5_timestamp_updates (a : RunArgs)
    (hpre : a.preHookFails = false)
    (hopt : (a.localSelected && a.backupDirsNonempty && !a.dryRun &&
      (a.mode == .incremental || a.mode == .differential) && a.compress)
        = false) :
    ∃ fullU lastU, backupOperation a = .finished fullU lastU ∧
      (fullU = true ↔ a.localSelected = true ∧ a.backupDirsNonempty = true ∧
        a.dryRun = false ∧ a.mode = .full) ∧
      (lastU = true ↔ a.dryRun = false) := by
  refine ⟨a.localSelected && a.backupDirsNonempty && !a.dryRun &&
    (a.mode == .full), !a.dryRun, ?_, ?_, ?_⟩
  · simp [backupOperation, hpre, hopt]
  · simp [Bool.and_eq_true, beq_iff_eq, Bool.not_eq_true', and_assoc]
  · simp [Bool.not_eq_true']

theorem c5_timestamp_updates_witness :
    ∃ fullU lastU,
      backupOperation ⟨.incremental, true, true, false, false, false, true, false⟩
          = .finished fullU lastU ∧
      (fullU = true ↔ true = true ∧ true = true ∧ false = false ∧
        BackupMode.incremental = .full) ∧
      (lastU = true ↔ false = false) :=
  c5_timestamp_updates ⟨.incremental, true, true, false, false, false, true, false⟩
    rfl (by decide)

/-- C3: decrypting the bytes produced by encrypt_file with the same
credential restores the plaintext, for every plaintext, every credential
(passphrase or raw key file), every 16-byte salt and every 12-byte nonce,
given the AES-GCM library contract that decryption inverts encryption
under the same key and nonce.  The proof is about the repository's layout
salt(16) || nonce(12) || ciphertext and its key selection: the key-file
path writes a zero salt field and ignores it on decrypt; the passphrase
path re-derives the key from the stored salt. -/
theorem c3_encrypt_decrypt_roundtrip
    (aesEnc : List Nat → List Nat → List Nat → List Nat)
    (aesDec : List Nat → List Nat → List Nat → Option (List Nat))
    (derive : String → List Nat → List Nat)
    (hAEAD : ∀ k n p, aesDec k n (aesEnc k n p) = some p)
    (cred : Cred) (freshSalt nonce plaintext : List Nat)
    (hs : freshSalt.length = SALT_SIZE) (hn : nonce.length = NONCE_SIZE) :
    decrypt_file aesDec derive cred
      (encrypt_file aesEnc derive cred freshSalt nonce plaintext) =
        some plaintext := by
  have hz : (List.replicate SALT_SIZE (0 : Nat)).length = SALT_SIZE :=
    List.length_replicate SALT_SIZE 0
  cases cred with
  | keyFile key =>
    simp only [encrypt_file, decrypt_file, List.append_assoc]
    rw [ List.drop_left' hz, List.take_left' hn, List.drop_left' hn, hAEAD]
  | passphrase pw =>
    simp only [encrypt_file, decrypt_file, List.append_assoc]
    rw [ List.take_left' hs, List.drop_left' hs, List.take_left' hn,
      List.drop_left' hn, hAEAD]

theorem c3_encrypt_decrypt_roundtrip_witness :
    decrypt_file (fun _ _ c => some c) (fun _ _ => []) (.passphrase "pw")
      (encrypt_file (fun _ _ p => p) (fun _ _ => []) (.passphrase "pw")
        (List.replicate 16 2) (List.replicate 12 1) [7, 7, 7]) =
      some [7, 7, 7] :=
  c3_encrypt_decrypt_roundtrip (fun _ _ p => p) (fun _ _ c => some c)
    (fun _ _ => []) (fun _ _ _ => rfl) (.passphrase "pw")
    (List.replicate 16 2) (List.replicate 12 1) [7, 7, 7]
    (by decide) (by decide)

/-- Every manifest record is exactly one of copied, skipped, failed, so the
three counters always sum to the number of records. -/
lemma count_three_sum (l : List ManifestRec) :
    l.count .copied + l.count .skipped + l.count .failed = l.length := by
  induction l with
  | nil => rfl
  | cons x xs ih =>
    cases x <;> simp [List.count_cons, ih] <;> omega

lemma incRecords_length (lastBackupTime : Nat) (files : List SrcFile)
    (dirs : List Nat) (destExists : SrcFile → Nat → Bool)
    (res : SrcFile → Nat → CopyRes) :
    (incRecords lastBackupTime files dirs destExists res).length =
      files.length * dirs.length := by
  induction files with
  | nil => simp [incRecords]
  | cons f fs ih =>
    simp [incRecords, List.flatMap_cons, Nat.succ_mul] at ih ⊢
    omega

/-- C1 counterexample: an incremental run over one filtered source entry
and two backup directories records the entry once per directory, so the
manifest counters sum to 2, not to the number of filtered entries (1): the
claimed partition fails whenever more than one backup directory is
configured.  The concrete input: one unmodified file (mtime 0, not a
symlink, destination copies exist, last backup at time 5) and backup
directories numbered 0 and 1. -/
theorem c1_manifest_partition_counterexample :
    incManifestTotal 5 [⟨0, false⟩] [0, 1] (fun _ _ => true)
        (fun _ _ => .ok) ≠
      ([⟨0, false⟩] : List SrcFile).length := by
  decide

/-- C1 amended: the manifest counters of an incremental run sum to the
number of filtered source entries times the number of backup directories —
each filtered entry is recorded exactly once per backup directory, in
exactly one of the three lists; the sum equals the number of filtered
entries exactly when one backup directory is configured. -/
theorem c1_manifest_partition (lastBackupTime : Nat) (files : List SrcFile)
    (dirs : List Nat) (destExists : SrcFile → Nat → Bool)
    (res : SrcFile → Nat → CopyRes) :
    incManifestTotal lastBackupTime files dirs destExists res =
      files.length * dirs.length := by
  unfold incManifestTotal
  rw [count_three_sum, incRecords_length]

/-- C2 (the should_exclude model follows the spec: the function is imported
from src.utils but absent from the repository sources): a relative path is
excluded iff some pattern glob-matches the full relative path, the
basename, or one of the ancestor segments; a missing or empty pattern list
excludes nothing. -/
theorem c2_should_exclude_characterization (rel : RelPath) :
    should_exclude rel none = false ∧
    should_exclude rel (some []) = false ∧
    ∀ pats, (should_exclude rel (some pats) = true ↔
      ∃ pat ∈ pats, globMatches pat rel.full = true ∨
        globMatches pat rel.base = true ∨
        ∃ d ∈ rel.dirs, globMatches pat d = true) := by
  refine ⟨rfl, rfl, fun pats => ?_⟩
  simp [should_exclude, RelPath.candidates, List.any_eq_true]

/-! ### Properties of the insertion sort -/

lemma mem_insLe {le : α → α → Bool} {x a : α} :
    ∀ {l : List α}, a ∈ insLe le x l ↔ a = x ∨ a ∈ l := by
  intro l
  induction l with
  | nil => simp [insLe]
  | cons y ys ih =>
    by_cases h : le x y = true
    · simp [insLe, h]
    · simp [insLe, h, ih]
      tauto

lemma mem_sortLe {le : α → α → Bool} {a : α} :
    ∀ {l : List α}, a ∈ sortLe le l ↔ a ∈ l := by
  intro l
  induction l with
  | nil => simp [sortLe]
  | cons x xs ih => simp [sortLe, mem_insLe, ih]

lemma pairwise_insLe {le : α → α → Bool}
    (htot : ∀ a b, le a b = true ∨ le b a = true)
    (htrans : ∀ a b c, le a b = true → le b c = true → le a c = true)
    (x : α) :
    ∀ {l : List α}, l.Pairwise (fun a b => le a b = true) →
      (insLe le x l).Pairwise (fun a b => le a b = true) := by
  intro l
  induction l with
  | nil => intro _; simp [insLe]
  | cons y ys ih =>
    intro hl
    rcases List.pairwise_cons.mp hl with ⟨hy, hys⟩
    by_cases h : le x y = true
    · rw [insLe, if_pos h]
      refine List.pairwise_cons.mpr ⟨?_, hl⟩
      intro b hb
      rcases List.mem_cons.mp hb with hbx | hb
      · exact hbx ▸ h
      · exact htrans x y b h (hy b hb)
    · rw [insLe, if_neg h]
      refine List.pairwise_cons.mpr ⟨?_, ih hys⟩
      intro b hb
      rcases mem_insLe.mp hb with hbx | hb
      · exact hbx ▸ (htot x y).resolve_left h
      · exact hy b hb

lemma pairwise_sortLe {le : α → α → Bool}
    (htot : ∀ a b, le a b = true ∨ le b a = true)
    (htrans : ∀ a b c, le a b = true → le b c = true → le a c = true) :
    ∀ l : List α, (sortLe le l).Pairwise (fun a b => le a b = true) := by
  intro l
  induction l with
  | nil => simp [sortLe]
  | cons x xs ih => exact pairwise_insLe htot htrans x ih

/-- Filtering a list by a predicate that can only turn false further down
the order keeps an initial run: on a list sorted for that order, filter and
takeWhile agree. -/
lemma filter_eq_takeWhile_of_sorted {R : α → α → Prop} {p : α → Bool}
    (hp : ∀ a b, R a b → p a = false → p b = false) :
    ∀ l : List α, l.Pairwise R → l.filter p = l.takeWhile p := by
  intro l
  induction l with
  | nil => intro _; rfl
  | cons x xs ih =>
    intro hl
    rcases List.pairwise_cons.mp hl with ⟨hx, hxs⟩
    by_cases hpx : p x = true
    · simp [List.filter_cons, List.takeWhile_cons, hpx, ih hxs]
    · have hpx0 : p x = false := by simpa using hpx
      have hnil : xs.filter p = [] := by
        simp only [List.filter_eq_nil_iff]
        intro b hb
        simp [hp x b (hx b hb) hpx0]
      simp [List.filter_cons, List.takeWhile_cons, hpx0, hnil]

/-- C9: after the retention reaper runs with max_count = N > 0 (modelled
with every individual removal succeeding), at most N non-manifest top-level
entries survive, and the survivors are an initial segment of the
non-manifest entries sorted newest first — the newest ones; when both
max_age_days and max_count are 0 the reaper removes nothing. -/
theorem c9_retention_invariant (entries : List RetEntry)
    (maxAgeDays maxCount now : Nat) :
    (0 < maxCount →
      (retentionKept entries maxAgeDays maxCount now).length ≤ maxCount ∧
      retentionKept entries maxAgeDays maxCount now <+:
        retentionSortedDesc entries) ∧
    (maxAgeDays = 0 → maxCount = 0 →
      retentionKept entries maxAgeDays maxCount now =
        entries.filter (fun e => !e.isManifest)) := by
  have hsortedPW : (retentionSortedDesc entries).Pairwise
      (fun a b : RetEntry => decide (b.mtime ≤ a.mtime) = true) := by
    refine pairwise_sortLe ?_ ?_ _
    · intro a b
      rcases Nat.le_total b.mtime a.mtime with h | h
      · exact Or.inl (decide_eq_true h)
      · exact Or.inr (decide_eq_true h)
    · intro a b c hab hbc
      exact decide_eq_true
        (Nat.le_trans (of_decide_eq_true hbc) (of_decide_eq_true hab))
  have hAgePre : retentionAfterAge entries maxAgeDays now <+:
      retentionSortedDesc entries := by
    rw [retentionAfterAge]
    by_cases hage : maxAgeDays > 0
    · rw [if_pos hage]
      rw [filter_eq_takeWhile_of_sorted ?_ _ hsortedPW]
      · exact List.takeWhile_prefix _
      · intro a b hab hpa
        have hmt : b.mtime ≤ a.mtime := of_decide_eq_true hab
        have hgt : ¬(now - a.mtime ≤ maxAgeDays * 86400) :=
          of_decide_eq_false hpa
        refine decide_eq_false ?_
        have := Nat.sub_le_sub_left hmt now
        omega
    · rw [if_neg hage]
  constructor
  · intro hN
    have hcond : ¬(maxAgeDays = 0 ∧ maxCount = 0) := by omega
    rw [retentionKept, if_neg hcond]
    by_cases hc : maxCount > 0 ∧
        (retentionAfterAge entries maxAgeDays now).length > maxCount
    · rw [if_pos hc]
      exact ⟨List.length_take_le maxCount _,
        ( List.take_prefix maxCount _).trans hAgePre⟩
    · rw [if_neg hc]
      refine ⟨?_, hAgePre⟩
      omega
  · intro h0 h1
    rw [retentionKept, if_pos ⟨h0, h1⟩]

theorem c9_retention_invariant_witness :
    (retentionKept [⟨"a", 3, false⟩, ⟨"b", 1, false⟩, ⟨"c", 2, false⟩]
        0 2 10).length ≤ 2 ∧
    retentionKept [⟨"a", 3, false⟩, ⟨"b", 1, false⟩, ⟨"c", 2, false⟩]
        0 2 10 <+:
      retentionSortedDesc [⟨"a", 3, false⟩, ⟨"b", 1, false⟩, ⟨"c", 2, false⟩] ∧
    retentionKept [⟨"a", 3, false⟩, ⟨"b", 1, false⟩, ⟨"c", 2, false⟩]
        0 0 10 =
      List.filter (fun e => !e.isManifest)
        [⟨"a", 3, false⟩, ⟨"b", 1, false⟩, ⟨"c", 2, false⟩] :=
  ⟨((c9_retention_invariant [⟨"a", 3, false⟩, ⟨"b", 1, false⟩, ⟨"c", 2, false⟩]
      0 2 10).1 (by decide)).1,
    ((c9_retention_invariant [⟨"a", 3, false⟩, ⟨"b", 1, false⟩, ⟨"c", 2, false⟩]
      0 2 10).1 (by decide)).2,
    (c9_retention_invariant [⟨"a", 3, false⟩, ⟨"b", 1, false⟩, ⟨"c", 2, false⟩]
      0 0 10).2 rfl rfl⟩

/-! ### Properties of the files_to_restore accumulation -/

lemma insertEntry_cons (q : String × CopyEntry) (qs : List (String × CopyEntry))
    (e : CopyEntry) (hq : ¬q.1 = e.path) :
    insertEntry (q :: qs) e = q :: insertEntry qs e := by
  by_cases hqs : qs.any (fun r => decide (r.1 = e.path)) = true <;>
    simp [insertEntry, List.any_cons, hq, hqs]

lemma lookup_replaceValue (k p : String) (e : CopyEntry) (hk : ¬k = p) :
    ∀ qs : List (String × CopyEntry),
      (qs.map (fun q => if q.1 = p then (q.1, e) else q)).lookup k =
        qs.lookup k := by
  intro qs
  induction qs with
  | nil => rfl
  | cons q qs ih =>
    by_cases hq : q.1 = p
    · have hkq : (k == q.1) = false := by
        refine beq_eq_false_iff_ne.mpr ?_
        rw [hq]
        exact hk
      rw [List.map_cons, if_pos hq]
      simp [List.lookup, hkq, ih]
    · rw [List.map_cons, if_neg hq]
      by_cases hkq : (k == q.1) = true
      · simp [List.lookup, hkq]
      · have hkq0 : (k == q.1) = false := by simpa using hkq
        simp [List.lookup, hkq0, ih]

lemma lookup_insertEntry_self :
    ∀ (m : List (String × CopyEntry)) (e : CopyEntry),
      (insertEntry m e).lookup e.path = some e := by
  intro m e
  induction m with
  | nil => simp [insertEntry, List.lookup]
  | cons q qs ih =>
    by_cases hq : q.1 = e.path
    · have hany : ((q :: qs).any (fun r => decide (r.1 = e.path))) = true := by
        simp [List.any_cons, hq]
      have hkq : (e.path == q.1) = true := beq_iff_eq.mpr hq.symm
      rw [insertEntry, if_pos hany, List.map_cons, if_pos hq]
      simp [List.lookup, hkq]
    · have hkq : (e.path == q.1) = false :=
        beq_eq_false_iff_ne.mpr (fun hh => hq hh.symm)
      rw [insertEntry_cons q qs e hq]
      simp [List.lookup, hkq, ih]

lemma lookup_insertEntry_other (m : List (String × CopyEntry))
    (e : CopyEntry) (k : String) (hk : ¬k = e.path) :
    (insertEntry m e).lookup k = m.lookup k := by
  by_cases hany : m.any (fun r => decide (r.1 = e.path)) = true
  · rw [insertEntry, if_pos hany]
    exact lookup_replaceValue k e.path e hk m
  · rw [insertEntry, if_neg hany, List.lookup_append]
    have hsing : List.lookup k [(e.path, e)] = none := by
      have hkq : (k == e.path) = false := beq_eq_false_iff_ne.mpr hk
      simp [List.lookup, hkq]
    rw [hsing, Option.or_none]

/-- Folding insertEntry over a list of entries: a key reads back as its
latest occurrence (the first match when scanning from the end), falling
back to the initial map. -/
lemma foldl_insertEntry_lookup (k : String) :
    ∀ (l : List CopyEntry) (m : List (String × CopyEntry)),
      (l.foldl insertEntry m).lookup k =
        (l.reverse.find? (fun e => decide (e.path = k))).or (m.lookup k) := by
  intro l
  induction l with
  | nil => intro m; simp
  | cons e l ih =>
    intro m
    rw [List.foldl_cons, ih, List.reverse_cons, List.find?_append,
      Option.or_assoc]
    by_cases he : e.path = k
    · have h1 : List.find? (fun e2 => decide (e2.path = k)) [e] = some e := by
        simp [List.find?, he]
      have h2 : (insertEntry m e).lookup k = some e := by
        rw [show k = e.path from he.symm]
        exact lookup_insertEntry_self m e
      rw [h1, h2]
      rfl
    · have h1 : List.find? (fun e2 => decide (e2.path = k)) [e] = none := by
        simp [List.find?, he]
      have h2 : (insertEntry m e).lookup k = m.lookup k :=
        lookup_insertEntry_other m e k (fun hh => he hh.symm)
      rw [h1, h2, Option.none_or]

lemma filesToRestore_eq_flat (ms : List ManifestFile) :
    ∀ m0 : List (String × CopyEntry),
      ms.foldl (fun acc mf => mf.copied.foldl insertEntry acc) m0 =
        (ms.flatMap (fun mf => mf.copied)).foldl insertEntry m0 := by
  induction ms with
  | nil => intro m0; rfl
  | cons mf ms ih =>
    intro m0
    rw [List.foldl_cons, ih, List.flatMap_cons, List.foldl_append]

lemma lookup_filesToRestore (ms : List ManifestFile) (k : String) :
    (filesToRestore ms).lookup k =
      (ms.flatMap (fun mf => mf.copied)).reverse.find?
        (fun e => decide (e.path = k)) := by
  rw [filesToRestore, filesToRestore_eq_flat, foldl_insertEntry_lookup]
  simp [List.lookup]

/-- C6: with a timestamp argument, the restore engine selects exactly the
manifests whose timestamp is at most the cutoff, in chronological order;
when none exists it falls back to a full-directory restore, and otherwise
the replay map sends each path to its latest copied occurrence across the
selected manifests (later manifests override earlier ones), its domain
being exactly the union of the copied entries. -/
theorem c6_restore_plan (files : List ManifestFile) (cutoff : Nat) :
    (load_manifests_up_to files cutoff = [] →
      restorePlan files cutoff = .fullRestore) ∧
    (load_manifests_up_to files cutoff ≠ [] →
      restorePlan files cutoff =
        .replay (filesToRestore (load_manifests_up_to files cutoff))) ∧
    (∀ m, m ∈ load_manifests_up_to files cutoff ↔
      m ∈ files ∧ m.ts ≤ cutoff) ∧
    (load_manifests_up_to files cutoff).Pairwise
      (fun a b => a.ts ≤ b.ts) ∧
    (∀ p, (filesToRestore (load_manifests_up_to files cutoff)).lookup p =
      ((load_manifests_up_to files cutoff).flatMap
        (fun mf => mf.copied)).reverse.find?
          (fun e => decide (e.path = p))) ∧
    (∀ p, ((filesToRestore (load_manifests_up_to files cutoff)).lookup
        p).isSome = true ↔
      ∃ mf ∈ load_manifests_up_to files cutoff, ∃ e ∈ mf.copied,
        e.path = p) := by
  refine ⟨?_, ?_, ?_, ?_, ?_, ?_⟩
  · intro h
    rw [restorePlan, h]
  · intro h
    rw [restorePlan]
    rcases hl : load_manifests_up_to files cutoff with _ | ⟨m, ms⟩
    · exact absurd hl h
    · rfl
  · intro m
    rw [load_manifests_up_to, List.mem_filter, mem_sortLe]
    simp
  · have hPW := @pairwise_sortLe ManifestFile
      (fun a b : ManifestFile => decide (a.ts ≤ b.ts))
      (fun a b => by
        rcases le_total a.ts b.ts with h | h
        · exact Or.inl (decide_eq_true h)
        · exact Or.inr (decide_eq_true h))
      (fun a b c hab hbc => decide_eq_true
        (le_trans (of_decide_eq_true hab) (of_decide_eq_true hbc)))
      files
    rw [load_manifests_up_to]
    exact (hPW.filter _).imp (fun h => of_decide_eq_true h)
  · intro p
    exact lookup_filesToRestore _ p
  · intro p
    rw [lookup_filesToRestore]
    rw [List.find?_isSome]
    simp
    tauto

theorem c6_restore_plan_witness :
    (restorePlan [⟨2, [⟨"y", 1⟩]⟩, ⟨1, [⟨"x", 1⟩, ⟨"y", 0⟩]⟩] 2 =
      .replay (filesToRestore (load_manifests_up_to
        [⟨2, [⟨"y", 1⟩]⟩, ⟨1, [⟨"x", 1⟩, ⟨"y", 0⟩]⟩] 2))) ∧
    restorePlan [⟨2, [⟨"y", 1⟩]⟩] 1 = .fullRestore :=
  ⟨(c6_restore_plan [⟨2, [⟨"y", 1⟩]⟩, ⟨1, [⟨"x", 1⟩, ⟨"y", 0⟩]⟩] 2).2.1
      (by decide),
    (c6_restore_plan [⟨2, [⟨"y", 1⟩]⟩] 1).1 (by decide)⟩

end BackupHandler
